import Mathlib

/-!
Shallow embedding of the segment-density aggregation engine of the
mapbox-heatmap repository: the segmenter (src/routeLoader.js,
scripts/generateHeatmapData.js), the density aggregator and the two
intensity-mapping policies (reprocessWithRadius and randomizeIntensities
in src/App.jsx).

Modelling conventions: coordinates are rationals; JS Math.round is
jsRound x = floor (x + 1/2), which matches Math.round's
half-toward-positive-infinity behaviour; JS objects used as hash maps
are insertion-ordered association lists with update-in-place and
append-on-new-key, and the or-default idiom obj[k] || d maps absent
keys (and a zero value) to the default; the unseeded randomness source
of the randomized policy is an explicit function parameter giving the
variation value drawn for each route sub-segment.
-/

/-- JS Math.round: round half toward positive infinity. -/
def jsRound (q : ℚ) : ℤ := ⌊q + 1 / 2⌋

/-- Rounding of one coordinate value at precision p, as in App.jsx:
Math.round (x * precision) / precision. -/
def roundCoord (p x : ℚ) : ℚ := (jsRound (x * p) : ℚ) / p

/-- A GeoJSON coordinate, written [lon, lat] in the source data. -/
structure Coord where
  lon : ℚ
  lat : ℚ
deriving DecidableEq

/-- Feature properties: intensity, density, routeId, plus an opaque payload
standing for every remaining property (routeName, filename, ...). -/
structure Props (α : Type) where
  intensity : ℤ
  density : ℤ
  routeId : ℕ
  other : α
deriving DecidableEq

/-- A two-point LineString feature: its id, its properties and the two
endpoint coordinates of its geometry. -/
structure Feature (α : Type) where
  id : ℕ
  properties : Props α
  geometry : Coord × Coord
deriving DecidableEq

/-- A canonical bucket key: the two rounded endpoints, each as a
(lat, lon) pair, in canonical order. -/
abbrev SegKey : Type := (ℚ × ℚ) × (ℚ × ℚ)

/-- Canonical bucket key of a segment (App.jsx lines 72-79 / 87-94):
round both endpoints at precision p, then order them lexicographically,
latitude first then longitude, smaller endpoint first. -/
def canonKey (p : ℚ) (g : Coord × Coord) : SegKey :=
  let lat1 := roundCoord p g.1.lat
  let lon1 := roundCoord p g.1.lon
  let lat2 := roundCoord p g.2.lat
  let lon2 := roundCoord p g.2.lon
  if lat1 < lat2 ∨ (lat1 = lat2 ∧ lon1 < lon2) then ((lat1, lon1), (lat2, lon2))
  else ((lat2, lon2), (lat1, lon1))

/-- Raw JS-object read with the zero default, segmentDensity[key] || 0:
the stored value of the key, or 0 when the key is absent. -/
def rawLookup : List (SegKey × ℕ) → SegKey → ℕ
  | [], _ => 0
  | e :: rest, k => if e.1 = k then e.2 else rawLookup rest k

/-- JS-object read with the one default, segmentDensity[key] || 1
(App.jsx line 96): absent keys, and a stored zero, give 1. -/
def lookupD (m : List (SegKey × ℕ)) (k : SegKey) : ℕ :=
  if rawLookup m k = 0 then 1 else rawLookup m k

/-- One first-pass increment, segmentDensity[key] = (segmentDensity[key] || 0) + 1
(App.jsx line 81): update the entry in place, or append a fresh entry with
count 1. -/
def bump : List (SegKey × ℕ) → SegKey → List (SegKey × ℕ)
  | [], k => [(k, 1)]
  | e :: rest, k => if e.1 = k then (e.1, e.2 + 1) :: rest else e :: bump rest k

/-- First pass of reprocessWithRadius (App.jsx lines 70-82): fold over the
features, bumping the density counter of each feature's canonical key. -/
def buildDensity (data : List (Feature α)) (prec : ℚ) : List (SegKey × ℕ) :=
  data.foldl (fun m f => bump m (canonKey prec f.geometry)) []

/-- Second-pass body of reprocessWithRadius (App.jsx lines 85-106): recompute
the feature's key, look its density up (default 1), and return a copy of the
feature whose intensity is the density capped at densityCap and whose density
property is the density itself; all other fields are spread unchanged. -/
def annotateD (m : List (SegKey × ℕ)) (prec : ℚ) (cap : ℤ) (f : Feature α) :
    Feature α :=
  let density := lookupD m (canonKey prec f.geometry)
  { f with properties :=
    { f.properties with intensity := min (density : ℤ) cap, density := (density : ℤ) } }

/-- reprocessWithRadius (App.jsx lines 66-107): build the density map from the
data, then map the annotation body over the same data. -/
def reprocessWithRadius (data : List (Feature α)) (prec : ℚ) (cap : ℤ) :
    List (Feature α) :=
  data.map (annotateD (buildDensity data prec) prec cap)

/-- Number of features of the data whose canonical key at precision prec is k. -/
def countKey (data : List (Feature α)) (prec : ℚ) (k : SegKey) : ℕ :=
  data.countP (fun f => decide (canonKey prec f.geometry = k))

/-- Concrete two-feature data set: both features share the same geometry, so
they share one bucket of density 2 at any precision. -/
def dataTwo : List (Feature Unit) :=
  [⟨0, ⟨1, 1, 0, ()⟩, (⟨0, 0⟩, ⟨1, 0⟩)⟩, ⟨1, ⟨1, 1, 1, ()⟩, (⟨0, 0⟩, ⟨1, 0⟩)⟩]

/-- Concrete data set showing that coarser rounding can split a bucket: the
two start latitudes 0.46 and 0.54 round together at precision 10 (both to
0.5) but apart at precision 1 (to 0 and 1). -/
def dataSplit : List (Feature Unit) :=
  [⟨0, ⟨1, 1, 0, ()⟩, (⟨0, 46/100⟩, ⟨0, 1⟩)⟩, ⟨1, ⟨1, 1, 1, ()⟩, (⟨0, 54/100⟩, ⟨0, 1⟩)⟩]

/-- Integer point key of the randomized policy (App.jsx lines 127, 155, 180):
the pair (Math.round (lat * precision), Math.round (lon * precision)). -/
def ptKey (prec : ℚ) (c : Coord) : ℤ × ℤ :=
  (jsRound (c.lat * prec), jsRound (c.lon * prec))

/-- pointToRoutes (App.jsx lines 122-133): the set of route ids of the
features having an endpoint with the given rounded point key; a key reached
by no feature has the empty set, as an absent key of the JS object. -/
def pointRoutes (data : List (Feature α)) (prec : ℚ) (k : ℤ × ℤ) : Finset ℕ :=
  ((data.filter (fun f =>
      decide (ptKey prec f.geometry.1 = k ∨ ptKey prec f.geometry.2 = k))).map
    (fun f => f.properties.routeId)).toFinset

/-- Intersection points (App.jsx lines 136-141): a rounded point key used by
two or more distinct routes. -/
def isIntersection (data : List (Feature α)) (prec : ℚ) (k : ℤ × ℤ) : Bool :=
  decide (2 ≤ (pointRoutes data prec k).card)

/-- routeGroups (App.jsx lines 112-119): the features of one route, in data
order. -/
def routeGroup (data : List (Feature α)) (r : ℕ) : List (Feature α) :=
  data.filter (fun f => decide (f.properties.routeId = r))

/-- The sub-segment splitting loop over one route (App.jsx lines 149-164):
push each feature onto the current run; flush the run after a feature whose
terminal endpoint satisfies the predicate, and at the end of the route (the
flush is guarded by nonemptiness of the run, which always holds right after
a push; a leftover run after the loop is discarded, and is always empty
because the last index always flushes). -/
def splitGo (pred : Feature α → Bool) (cur : List (Feature α)) :
    List (Feature α) → List (List (Feature α))
  | [] => []
  | f :: rest =>
    if rest.isEmpty then [cur ++ [f]]
    else if pred f then (cur ++ [f]) :: splitGo pred [] rest
    else splitGo pred (cur ++ [f]) rest

/-- routeSegments for one route (App.jsx lines 143-165): split the route's
ordered feature list into runs delimited by intersection terminal points. -/
def routeSubsegs (data : List (Feature α)) (prec : ℚ) (r : ℕ) :
    List (List (Feature α)) :=
  splitGo (fun f => isIntersection data prec (ptKey prec f.geometry.2)) []
    (routeGroup data r)

/-- overlapCount of one sub-segment (App.jsx lines 174-185): starting from 1,
the maximum, over both endpoints of every feature of the run, of the number
of distinct routes using that rounded point (an absent key contributes
nothing, as its route set is empty). -/
def overlapCount (data : List (Feature α)) (prec : ℚ) (seg : List (Feature α)) : ℕ :=
  seg.foldl (fun acc f =>
    max (max acc (pointRoutes data prec (ptKey prec f.geometry.1)).card)
      (pointRoutes data prec (ptKey prec f.geometry.2)).card) 1

/-- The clamp of App.jsx line 190: Math.max (1, Math.min (densityCap, x)). -/
def clampIntensity (cap x : ℤ) : ℤ := max 1 (min cap x)

/-- The intensity stored for sub-segment i of route r (segmentIntensities,
App.jsx lines 168-194), composed with the defaulted lookup of line 213: a
missing entry (no such sub-segment of the route) reads back 1; otherwise the
intensity is the clamped rounding of baseIntensity = min (overlapCount,
densityCap) plus the variation value the randomness source yields for this
sub-segment (one draw per sub-segment). -/
def subsegIntensity (data : List (Feature α)) (prec : ℚ) (cap : ℤ)
    (rand : ℕ → ℕ → ℚ) (r i : ℕ) : ℤ :=
  match (routeSubsegs data prec r)[i]? with
  | some seg =>
      clampIntensity cap
        (jsRound ((min (overlapCount data prec seg : ℤ) cap : ℚ) + rand r i))
  | none => 1

/-- The sub-segment index attributed to a feature by the application phase
(App.jsx lines 201-210): the first sub-segment of the feature's route that
contains a feature with the same id; when none matches, segmentIndex keeps
its initial value 0 (the found flag the loop computes is never read). -/
def findSubIdx (segs : List (List (Feature α))) (f : Feature α) : ℕ :=
  let i := segs.findIdx (fun s => s.any (fun g => decide (g.id = f.id)))
  if i < segs.length then i else 0

/-- The application-phase body of randomizeIntensities (App.jsx lines
197-222): rewrite the feature's intensity with the stored intensity of the
sub-segment attributed to it, defaulting to 1; all other fields are spread
unchanged. -/
def applyIntensity (data : List (Feature α)) (prec : ℚ) (cap : ℤ)
    (rand : ℕ → ℕ → ℚ) (f : Feature α) : Feature α :=
  let idx := findSubIdx (routeSubsegs data prec f.properties.routeId) f
  let intensity := subsegIntensity data prec cap rand f.properties.routeId idx
  { f with properties := { f.properties with intensity := intensity } }

/-- randomizeIntensities (App.jsx lines 110-223): map the application-phase
body over the data the grouping was built from. -/
def randomizeIntensities (data : List (Feature α)) (prec : ℚ) (cap : ℤ)
    (rand : ℕ → ℕ → ℚ) : List (Feature α) :=
  data.map (applyIntensity data prec cap rand)

/-- Two routes sharing the rounded point (0, 0) at precision 1: route 0 is
the single feature with id 0, route 1 the single feature with id 1, so that
point is an intersection point and route 0's one sub-segment has
overlapCount 2. -/
def dataCross : List (Feature Unit) :=
  [⟨0, ⟨1, 1, 0, ()⟩, (⟨0, 0⟩, ⟨1, 0⟩)⟩, ⟨1, ⟨1, 1, 1, ()⟩, (⟨0, 0⟩, ⟨2, 0⟩)⟩]

/-- A feature claiming route 0 whose id 99 matches no feature of dataCross:
the application phase cannot match it to any sub-segment. -/
def strayFeature : Feature Unit := ⟨99, ⟨1, 1, 0, ()⟩, (⟨5, 5⟩, ⟨6, 6⟩)⟩

/-- One route of three consecutive features with ids 0, 1, 2: a single
sub-segment containing all three. -/
def dataLine : List (Feature Unit) :=
  [⟨0, ⟨1, 1, 0, ()⟩, (⟨0, 0⟩, ⟨1, 0⟩)⟩,
    ⟨1, ⟨1, 1, 0, ()⟩, (⟨1, 0⟩, ⟨2, 0⟩)⟩,
    ⟨2, ⟨1, 1, 0, ()⟩, (⟨2, 0⟩, ⟨3, 0⟩)⟩]

/-- The per-track segmenting loop (routeLoader.js lines 52-68 and 79-111,
generateHeatmapData.js lines 90-116 and 119-151): pair every point of the
track with its successor, in original order. -/
def trackSegments : List Coord → List (Coord × Coord)
  | p1 :: p2 :: rest => (p1, p2) :: trackSegments (p2 :: rest)
  | _ => []

/-- The first-pass density fold of convertRoutesToHeatmapData restricted to
one track's segments, at the fixed precision 10000 of routeLoader.js. -/
def trackDensity (segs : List (Coord × Coord)) : List (SegKey × ℕ) :=
  segs.foldl (fun m s => bump m (canonKey 10000 s)) []

theorem rawLookup_bump (m : List (SegKey × ℕ)) (k' k : SegKey) :
    rawLookup (bump m k') k = rawLookup m k + (if k' = k then 1 else 0) := by
  induction m with
  | nil => by_cases h : k' = k <;> simp [bump, rawLookup, h]
  | cons e rest ih =>
    by_cases h1 : e.1 = k'
    · subst h1
      by_cases h2 : e.1 = k <;> simp [bump, rawLookup, h2]
    · by_cases h2 : e.1 = k
      · have hk : k' ≠ k := fun h => h1 (h2.trans h.symm)
        simp [bump, rawLookup, h1, h2, hk, hk.symm]
      · simp [bump, rawLookup, h1, h2, ih]

theorem rawLookup_foldl (l : List (Feature α)) (prec : ℚ)
    (m : List (SegKey × ℕ)) (k : SegKey) :
    rawLookup (l.foldl (fun m f => bump m (canonKey prec f.geometry)) m) k =
      rawLookup m k + countKey l prec k := by
  induction l generalizing m with
  | nil => simp [countKey]
  | cons f rest ih =>
    simp only [List.foldl_cons, ih, rawLookup_bump, countKey, List.countP_cons]
    by_cases h : canonKey prec f.geometry = k
    · simp [h]
      omega
    · simp [h]


theorem rawLookup_buildDensity (data : List (Feature α)) (prec : ℚ) (k : SegKey) :
    rawLookup (buildDensity data prec) k = countKey data prec k := by
  simpa [buildDensity, rawLookup] using rawLookup_foldl data prec [] k

theorem lookupD_buildDensity (data : List (Feature α)) (prec : ℚ) (k : SegKey) :
    lookupD (buildDensity data prec) k =
      if countKey data prec k = 0 then 1 else countKey data prec k := by
  simp [lookupD, rawLookup_buildDensity]

theorem one_le_lookupD (m : List (SegKey × ℕ)) (k : SegKey) : 1 ≤ lookupD m k := by
  unfold lookupD
  split <;> omega

/-- Claim C1: for every pair of points A, B and every positive precision P,
the canonical bucket key of the segment (A, B) equals the canonical bucket
key of the reversed segment (B, A): rounding both endpoints at precision P
and ordering them lexicographically (latitude first, then longitude, smaller
endpoint first) yields the same key for both traversal orders. -/
theorem canonical_key_symmetric (A B : Coord) (p : ℚ) (_hp : 0 < p) :
    canonKey p (A, B) = canonKey p (B, A) := by
  simp only [canonKey]
  by_cases h1 : roundCoord p A.lat < roundCoord p B.lat ∨
      (roundCoord p A.lat = roundCoord p B.lat ∧ roundCoord p A.lon < roundCoord p B.lon)
  · rw [if_pos h1, if_neg]
    rintro (h2 | ⟨h2, hl2⟩) <;> rcases h1 with h | ⟨he, hl⟩ <;> linarith
  · rw [if_neg h1]
    by_cases h2 : roundCoord p B.lat < roundCoord p A.lat ∨
        (roundCoord p B.lat = roundCoord p A.lat ∧ roundCoord p B.lon < roundCoord p A.lon)
    · rw [if_pos h2]
    · rw [if_neg h2]
      push_neg at h1 h2
      have hlat : roundCoord p A.lat = roundCoord p B.lat := le_antisymm h2.1 h1.1
      have hlon : roundCoord p A.lon = roundCoord p B.lon :=
        le_antisymm (h2.2 hlat.symm) (h1.2 hlat)
      rw [hlat, hlon]

theorem canonical_key_symmetric_witness :
    (0:ℚ) < 10 ∧
      canonKey 10 (⟨0, 46/100⟩, ⟨0, 1⟩) = canonKey 10 (⟨0, 1⟩, ⟨0, 46/100⟩) :=
  ⟨by norm_num, canonical_key_symmetric ⟨0, 46/100⟩ ⟨0, 1⟩ 10 (by norm_num)⟩

/-- Claim C2: under the Direct Policy every output feature's intensity is
exactly min (density of its bucket) cap, and for every cap at least 1 the
intensity lies in [1, cap]; a bucket key absent from the density map reads
back density 1. -/
theorem direct_policy_cap_exact (data : List (Feature α)) (prec : ℚ) (cap : ℤ)
    (hcap : 1 ≤ cap) :
    (∀ f ∈ reprocessWithRadius data prec cap,
      f.properties.intensity =
          min ((lookupD (buildDensity data prec) (canonKey prec f.geometry) : ℕ) : ℤ) cap ∧
        1 ≤ f.properties.intensity ∧ f.properties.intensity ≤ cap) ∧
    ∀ k : SegKey, (∀ f ∈ data, canonKey prec f.geometry ≠ k) →
      lookupD (buildDensity data prec) k = 1 := by
  constructor
  · intro f hf
    rcases List.mem_map.mp hf with ⟨a, ha, rfl⟩
    refine ⟨rfl, ?_, ?_⟩
    · show (1:ℤ) ≤
        min ((lookupD (buildDensity data prec) (canonKey prec a.geometry) : ℕ) : ℤ) cap
      exact le_min (by exact_mod_cast one_le_lookupD _ _) hcap
    · show min ((lookupD (buildDensity data prec) (canonKey prec a.geometry) : ℕ) : ℤ) cap ≤ cap
      exact min_le_right _ _
  · intro k hk
    rw [lookupD_buildDensity]
    have hz : countKey data prec k = 0 := by
      rw [countKey, List.countP_eq_zero]
      intro f hf
      simpa using hk f hf
    simp [hz]

theorem direct_policy_cap_exact_witness :
    (1:ℤ) ≤ 10 ∧
      ((⟨0, ⟨2, 2, 0, ()⟩, (⟨0, 0⟩, ⟨1, 0⟩)⟩ : Feature Unit).properties.intensity =
          min ((lookupD (buildDensity dataTwo 1)
            (canonKey 1 ((⟨0, 0⟩ : Coord), (⟨1, 0⟩ : Coord))) : ℕ) : ℤ) 10 ∧
        1 ≤ ((⟨0, ⟨2, 2, 0, ()⟩, (⟨0, 0⟩, ⟨1, 0⟩)⟩ : Feature Unit)).properties.intensity ∧
        ((⟨0, ⟨2, 2, 0, ()⟩, (⟨0, 0⟩, ⟨1, 0⟩)⟩ : Feature Unit)).properties.intensity ≤ 10) :=
  ⟨by norm_num,
    (direct_policy_cap_exact dataTwo 1 10 (by norm_num)).1
      ⟨0, ⟨2, 2, 0, ()⟩, (⟨0, 0⟩, ⟨1, 0⟩)⟩ (by with_unfolding_all decide)⟩

/-- Claim C3 counterexample: coarsening the precision from 10 to 1 strictly
decreases the density counted for the first feature's bucket in dataSplit:
the two start latitudes 0.46 and 0.54 round together at precision 10 but
apart at precision 1, so the bucket density drops from 2 to 1. -/
theorem density_coarsening_counterexample :
    lookupD (buildDensity dataSplit 1)
        (canonKey 1 ((⟨0, 46/100⟩ : Coord), (⟨0, 1⟩ : Coord))) <
      lookupD (buildDensity dataSplit 10)
        (canonKey 10 ((⟨0, 46/100⟩ : Coord), (⟨0, 1⟩ : Coord))) := by
  with_unfolding_all decide

/-- Claim C3 (amended): decreasing the precision never decreases the density
counted for an original segment's bucket, provided the coarser rounding
identifies every pair of segments that the finer rounding identifies; without
that coherence assumption coarser rounding can split a bucket (see the
counterexample). -/
theorem density_monotone_under_coherent_coarsening (data : List (Feature α))
    (pFine pCoarse : ℚ)
    (hcoh : ∀ f ∈ data, ∀ g ∈ data,
      canonKey pFine f.geometry = canonKey pFine g.geometry →
        canonKey pCoarse f.geometry = canonKey pCoarse g.geometry)
    (f : Feature α) (hf : f ∈ data) :
    lookupD (buildDensity data pFine) (canonKey pFine f.geometry) ≤
      lookupD (buildDensity data pCoarse) (canonKey pCoarse f.geometry) := by
  have hfine : 0 < countKey data pFine (canonKey pFine f.geometry) := by
    rw [countKey, List.countP_pos_iff]
    exact ⟨f, hf, by simp⟩
  have hcoarse : 0 < countKey data pCoarse (canonKey pCoarse f.geometry) := by
    rw [countKey, List.countP_pos_iff]
    exact ⟨f, hf, by simp⟩
  rw [lookupD_buildDensity, lookupD_buildDensity, if_neg (by omega), if_neg (by omega)]
  apply List.countP_mono_left
  intro g hg hpg
  simpa using hcoh g hg f hf (by simpa using hpg)

theorem density_monotone_under_coherent_coarsening_witness :
    (⟨0, ⟨1, 1, 0, ()⟩, (⟨0, 46/100⟩, ⟨0, 1⟩)⟩ : Feature Unit) ∈ [(⟨0, ⟨1, 1, 0, ()⟩, (⟨0, 46/100⟩, ⟨0, 1⟩)⟩ : Feature Unit)] ∧
      lookupD (buildDensity [(⟨0, ⟨1, 1, 0, ()⟩, (⟨0, 46/100⟩, ⟨0, 1⟩)⟩ : Feature Unit)] 10)
          (canonKey 10 ((⟨0, 46/100⟩ : Coord), (⟨0, 1⟩ : Coord))) ≤
        lookupD (buildDensity [(⟨0, ⟨1, 1, 0, ()⟩, (⟨0, 46/100⟩, ⟨0, 1⟩)⟩ : Feature Unit)] 1)
          (canonKey 1 ((⟨0, 46/100⟩ : Coord), (⟨0, 1⟩ : Coord))) :=
  ⟨by with_unfolding_all decide,
    density_monotone_under_coherent_coarsening
      [(⟨0, ⟨1, 1, 0, ()⟩, (⟨0, 46/100⟩, ⟨0, 1⟩)⟩ : Feature Unit)] 10 1
      (by with_unfolding_all decide)
      (⟨0, ⟨1, 1, 0, ()⟩, (⟨0, 46/100⟩, ⟨0, 1⟩)⟩ : Feature Unit)
      (by with_unfolding_all decide)⟩

/-- Claim C7: the Density Aggregator plus Direct Policy mapper is
deterministic: the densities read back from the bucket map, and the output
record list, depend only on the multiset of processed segments, not on the
order in which the first pass inserts keys into the map, and re-running on
identical input yields the identical output. -/
theorem direct_policy_deterministic (data data' : List (Feature α)) (prec : ℚ)
    (cap : ℤ) (hperm : data.Perm data') :
    (∀ k : SegKey,
        lookupD (buildDensity data prec) k = lookupD (buildDensity data' prec) k) ∧
      data.map (annotateD (buildDensity data' prec) prec cap) =
        reprocessWithRadius data prec cap := by
  have hcount : ∀ k, countKey data prec k = countKey data' prec k := by
    intro k
    exact hperm.countP_eq _
  have hlook : ∀ k,
      lookupD (buildDensity data prec) k = lookupD (buildDensity data' prec) k := by
    intro k
    rw [lookupD_buildDensity, lookupD_buildDensity, hcount]
  refine ⟨hlook, ?_⟩
  unfold reprocessWithRadius
  apply List.map_congr_left
  intro a _
  simp only [annotateD, hlook]

theorem direct_policy_deterministic_witness :
    dataTwo.Perm dataTwo.reverse ∧
      dataTwo.map (annotateD (buildDensity dataTwo.reverse 1) 1 10) =
        reprocessWithRadius dataTwo 1 10 :=
  ⟨by with_unfolding_all decide,
    (direct_policy_deterministic dataTwo dataTwo.reverse 1 10
      (by with_unfolding_all decide)).2⟩

/-- Claim C9: the Direct Policy re-annotation is frame-preserving: the output
list has the same length, and at every position the output feature keeps the
input feature's geometry, id, routeId and opaque remaining properties; only
intensity and density are rewritten.  The embedding is a pure function, so
the input list itself is unchanged by construction. -/
theorem direct_policy_frame (data : List (Feature α)) (prec : ℚ) (cap : ℤ) :
    (reprocessWithRadius data prec cap).length = data.length ∧
      ∀ i (h : i < data.length) (h2 : i < (reprocessWithRadius data prec cap).length),
        ((reprocessWithRadius data prec cap).get ⟨i, h2⟩).geometry = (data.get ⟨i, h⟩).geometry ∧
          ((reprocessWithRadius data prec cap).get ⟨i, h2⟩).id = (data.get ⟨i, h⟩).id ∧
          ((reprocessWithRadius data prec cap).get ⟨i, h2⟩).properties.routeId =
            (data.get ⟨i, h⟩).properties.routeId ∧
          ((reprocessWithRadius data prec cap).get ⟨i, h2⟩).properties.other =
            (data.get ⟨i, h⟩).properties.other := by
  refine ⟨by simp [reprocessWithRadius], ?_⟩
  intro i h h2
  simp [reprocessWithRadius, annotateD]

theorem direct_policy_frame_witness :
    (0 < dataTwo.length) ∧
      ((reprocessWithRadius dataTwo 1 10).get
          ⟨0, by with_unfolding_all decide⟩).geometry =
        (dataTwo.get ⟨0, by with_unfolding_all decide⟩).geometry :=
  ⟨by with_unfolding_all decide,
    ((direct_policy_frame dataTwo 1 10).2 0 (by with_unfolding_all decide)
      (by with_unfolding_all decide)).1⟩

theorem splitGo_flatten (pred : Feature α → Bool) :
    ∀ (l : List (Feature α)) (cur : List (Feature α)), l ≠ [] →
      (splitGo pred cur l).flatten = cur ++ l := by
  intro l
  induction l with
  | nil => intro cur h; exact absurd rfl h
  | cons f rest ih =>
    intro cur _
    by_cases hr : rest = []
    · subst hr
      simp [splitGo]
    · have hne : rest.isEmpty = false := by simpa using hr
      by_cases hp : pred f
      · simp [splitGo, hne, hp, ih [] hr]
      · simp [splitGo, hne, hp, ih (cur ++ [f]) hr]

theorem splitGo_ne_nil (pred : Feature α → Bool) :
    ∀ (l cur s : List (Feature α)), s ∈ splitGo pred cur l → s ≠ [] := by
  intro l
  induction l with
  | nil => intro cur s hs; simp [splitGo] at hs
  | cons f rest ih =>
    intro cur s hs
    by_cases hr : rest = []
    · subst hr
      simp [splitGo] at hs
      subst hs
      simp
    · have hne : rest.isEmpty = false := by simpa using hr
      by_cases hp : pred f
      · simp only [splitGo, hne, hp, if_false, if_true, Bool.false_eq_true,
          List.mem_cons] at hs
        rcases hs with hs | hs
        · subst hs
          simp
        · exact ih [] s hs
      · simp only [splitGo, hne, hp, if_false, Bool.false_eq_true] at hs
        exact ih (cur ++ [f]) s hs

theorem routeSubsegs_flatten (data : List (Feature α)) (prec : ℚ) (r : ℕ) :
    (routeSubsegs data prec r).flatten = routeGroup data r := by
  by_cases h : routeGroup data r = []
  · rw [routeSubsegs, h]
    simp [splitGo]
  · simpa using splitGo_flatten _ (routeGroup data r) [] h

theorem routeSubsegs_ne_nil (data : List (Feature α)) (prec : ℚ) (r : ℕ) :
    ∀ s ∈ routeSubsegs data prec r, s ≠ [] := by
  intro s hs
  exact splitGo_ne_nil _ (routeGroup data r) [] s hs

/-- Claim C10: for every route, the computed sub-segments form an ordered
partition of the route's feature list: concatenating them in order yields
exactly the route's ordered feature sequence, and no sub-segment is empty. -/
theorem randomized_subsegs_partition (data : List (Feature α)) (prec : ℚ) (r : ℕ) :
    (routeSubsegs data prec r).flatten = routeGroup data r ∧
      ∀ s ∈ routeSubsegs data prec r, s ≠ [] :=
  ⟨routeSubsegs_flatten data prec r, routeSubsegs_ne_nil data prec r⟩

theorem subsegIntensity_bounds (data : List (Feature α)) (prec : ℚ) (cap : ℤ)
    (rand : ℕ → ℕ → ℚ) (hcap : 1 ≤ cap) (r i : ℕ) :
    1 ≤ subsegIntensity data prec cap rand r i ∧
      subsegIntensity data prec cap rand r i ≤ cap := by
  unfold subsegIntensity
  cases h : (routeSubsegs data prec r)[i]? with
  | none => exact ⟨le_refl 1, hcap⟩
  | some seg =>
    unfold clampIntensity
    exact ⟨le_max_left 1 _, max_le hcap (min_le_left _ _)⟩

/-- Claim C4: under the Randomized Policy, for every positive cap and every
randomness source, every output feature's intensity lies in [1, cap]: the
jittered rounded value is clamped into the interval, and the defaulted
lookup of a missing sub-segment entry yields 1, also inside it. -/
theorem randomized_bounds (data : List (Feature α)) (prec : ℚ) (cap : ℤ)
    (rand : ℕ → ℕ → ℚ) (hcap : 1 ≤ cap) :
    ∀ f ∈ randomizeIntensities data prec cap rand,
      1 ≤ f.properties.intensity ∧ f.properties.intensity ≤ cap := by
  intro f hf
  rcases List.mem_map.mp hf with ⟨a, _, rfl⟩
  exact subsegIntensity_bounds data prec cap rand hcap a.properties.routeId
    (findSubIdx (routeSubsegs data prec a.properties.routeId) a)

theorem randomized_bounds_witness :
    (1:ℤ) ≤ 10 ∧
      (1 ≤ ((⟨0, ⟨1, 1, 0, ()⟩, (⟨0, 0⟩, ⟨1, 0⟩)⟩ : Feature Unit)).properties.intensity ∧
        ((⟨0, ⟨1, 1, 0, ()⟩, (⟨0, 0⟩, ⟨1, 0⟩)⟩ : Feature Unit)).properties.intensity ≤ 10) :=
  ⟨by norm_num,
    randomized_bounds dataLine 1 10 (fun _ _ => 0) (by norm_num)
      ⟨0, ⟨1, 1, 0, ()⟩, (⟨0, 0⟩, ⟨1, 0⟩)⟩ (by with_unfolding_all decide)⟩

theorem findIdx_eq_of_same_piece (pieces : List (List (Feature α)))
    (hnd : (pieces.flatten.map (fun f => f.id)).Nodup) (s : List (Feature α))
    (hs : s ∈ pieces) (f1 f2 : Feature α) (h1 : f1 ∈ s) (h2 : f2 ∈ s) :
    pieces.findIdx (fun t => t.any (fun g => decide (g.id = f1.id))) =
      pieces.findIdx (fun t => t.any (fun g => decide (g.id = f2.id))) := by
  induction pieces with
  | nil => simp at hs
  | cons p rest ih =>
    rcases List.mem_cons.mp hs with heq | hs2
    · have e1 : p.any (fun g => decide (g.id = f1.id)) = true :=
        List.any_eq_true.mpr ⟨f1, heq ▸ h1, by simp⟩
      have e2 : p.any (fun g => decide (g.id = f2.id)) = true :=
        List.any_eq_true.mpr ⟨f2, heq ▸ h2, by simp⟩
      simp only [List.findIdx_cons, e1, e2, cond_true]
    · have hsplit : (p.map (fun f => f.id)).Nodup ∧
          ((rest.flatten.map (fun f => f.id)).Nodup ∧
            (p.map (fun f => f.id)).Disjoint (rest.flatten.map (fun f => f.id))) := by
        rw [← List.nodup_append]
        simpa using hnd
      have hf1in : f1.id ∈ rest.flatten.map (fun f => f.id) :=
        List.mem_map.mpr ⟨f1, List.mem_flatten.mpr ⟨s, hs2, h1⟩, rfl⟩
      have hf2in : f2.id ∈ rest.flatten.map (fun f => f.id) :=
        List.mem_map.mpr ⟨f2, List.mem_flatten.mpr ⟨s, hs2, h2⟩, rfl⟩
      have e1 : p.any (fun g => decide (g.id = f1.id)) = false := by
        rw [List.any_eq_false]
        intro g hg
        simp only [decide_eq_true_eq]
        intro hEq
        exact hsplit.2.2 (List.mem_map.mpr ⟨g, hg, rfl⟩) (hEq ▸ hf1in)
      have e2 : p.any (fun g => decide (g.id = f2.id)) = false := by
        rw [List.any_eq_false]
        intro g hg
        simp only [decide_eq_true_eq]
        intro hEq
        exact hsplit.2.2 (List.mem_map.mpr ⟨g, hg, rfl⟩) (hEq ▸ hf2in)
      simp only [List.findIdx_cons, e1, e2, cond_false]
      exact congrArg (fun n => n + 1) (ih hsplit.2.1 hs2)

/-- Claim C5: under the Randomized Policy, within one invocation (one fixed
randomness source), any two features of the data that lie in the same
computed route sub-segment are assigned the identical intensity, provided
the feature ids of the data are pairwise distinct (they are unique by
construction in both loaders). -/
theorem randomized_subsegment_sharing (data : List (Feature α)) (prec : ℚ)
    (cap : ℤ) (rand : ℕ → ℕ → ℚ)
    (hids : (data.map (fun f => f.id)).Nodup)
    (r : ℕ) (seg : List (Feature α)) (hseg : seg ∈ routeSubsegs data prec r)
    (f1 f2 : Feature α) (h1 : f1 ∈ seg) (h2 : f2 ∈ seg) :
    (applyIntensity data prec cap rand f1).properties.intensity =
      (applyIntensity data prec cap rand f2).properties.intensity := by
  have hf1g : f1 ∈ routeGroup data r := by
    rw [← routeSubsegs_flatten data prec r]
    exact List.mem_flatten.mpr ⟨seg, hseg, h1⟩
  have hf2g : f2 ∈ routeGroup data r := by
    rw [← routeSubsegs_flatten data prec r]
    exact List.mem_flatten.mpr ⟨seg, hseg, h2⟩
  have hr1 : f1.properties.routeId = r := by
    have := (List.mem_filter.mp hf1g).2
    simpa using this
  have hr2 : f2.properties.routeId = r := by
    have := (List.mem_filter.mp hf2g).2
    simpa using this
  have hnd : ((routeSubsegs data prec r).flatten.map (fun f => f.id)).Nodup := by
    rw [routeSubsegs_flatten]
    exact List.Nodup.sublist (List.Sublist.map _ (List.filter_sublist data)) hids
  have hfind := findIdx_eq_of_same_piece (routeSubsegs data prec r) hnd seg hseg
    f1 f2 h1 h2
  show subsegIntensity data prec cap rand f1.properties.routeId
      (findSubIdx (routeSubsegs data prec f1.properties.routeId) f1) =
    subsegIntensity data prec cap rand f2.properties.routeId
      (findSubIdx (routeSubsegs data prec f2.properties.routeId) f2)
  rw [hr1, hr2]
  simp only [findSubIdx, hfind]

theorem randomized_subsegment_sharing_witness :
    (⟨1, ⟨1, 1, 0, ()⟩, (⟨1, 0⟩, ⟨2, 0⟩)⟩ : Feature Unit) ∈
        [(⟨0, ⟨1, 1, 0, ()⟩, (⟨0, 0⟩, ⟨1, 0⟩)⟩ : Feature Unit),
          ⟨1, ⟨1, 1, 0, ()⟩, (⟨1, 0⟩, ⟨2, 0⟩)⟩,
          ⟨2, ⟨1, 1, 0, ()⟩, (⟨2, 0⟩, ⟨3, 0⟩)⟩] ∧
      (applyIntensity dataLine 1 10 (fun _ _ => 0)
          (⟨1, ⟨1, 1, 0, ()⟩, (⟨1, 0⟩, ⟨2, 0⟩)⟩ : Feature Unit)).properties.intensity =
        (applyIntensity dataLine 1 10 (fun _ _ => 0)
          (⟨2, ⟨1, 1, 0, ()⟩, (⟨2, 0⟩, ⟨3, 0⟩)⟩ : Feature Unit)).properties.intensity :=
  ⟨by with_unfolding_all decide,
    randomized_subsegment_sharing dataLine 1 10 (fun _ _ => 0)
      (by with_unfolding_all decide) 0
      [⟨0, ⟨1, 1, 0, ()⟩, (⟨0, 0⟩, ⟨1, 0⟩)⟩,
        ⟨1, ⟨1, 1, 0, ()⟩, (⟨1, 0⟩, ⟨2, 0⟩)⟩,
        ⟨2, ⟨1, 1, 0, ()⟩, (⟨2, 0⟩, ⟨3, 0⟩)⟩]
      (by with_unfolding_all decide)
      ⟨1, ⟨1, 1, 0, ()⟩, (⟨1, 0⟩, ⟨2, 0⟩)⟩
      ⟨2, ⟨1, 1, 0, ()⟩, (⟨2, 0⟩, ⟨3, 0⟩)⟩
      (by with_unfolding_all decide) (by with_unfolding_all decide)⟩

/-- Claim C6, evaluated at the failing input: the stray feature of route 0
matches no sub-segment of its route (no feature of dataCross has its id 99),
yet the application phase assigns it the intensity stored for sub-segment 0
of route 0 — here 2 — and not the fallback 1 the spec prescribes: the found
flag of the matching loop is computed but never read, so the unmatched case
keeps segmentIndex 0 and reads that sub-segment's entry. -/
theorem randomized_unmatched_fallback_eval :
    (∀ s ∈ routeSubsegs dataCross 1 0, ∀ g ∈ s, ¬ g.id = strayFeature.id) ∧
      (applyIntensity dataCross 1 10 (fun _ _ => 0) strayFeature).properties.intensity = 2 := by
  with_unfolding_all decide

theorem trackSegments_length : ∀ pts : List Coord,
    (trackSegments pts).length = pts.length - 1
  | [] => rfl
  | [_] => rfl
  | p1 :: p2 :: rest => by
    have ih := trackSegments_length (p2 :: rest)
    simp only [trackSegments, List.length_cons] at ih ⊢
    omega

theorem trackSegments_get : ∀ (pts : List Coord) (i : ℕ)
    (h : i < (trackSegments pts).length)
    (ha : i < pts.length) (hb : i + 1 < pts.length),
    (trackSegments pts).get ⟨i, h⟩ = (pts.get ⟨i, ha⟩, pts.get ⟨i + 1, hb⟩)
  | [], _, h, _, _ => by simp [trackSegments] at h
  | [_], _, h, _, _ => by simp [trackSegments] at h
  | p1 :: p2 :: rest, 0, _, _, _ => rfl
  | p1 :: p2 :: rest, i + 1, h, ha, hb => by
    have ih := trackSegments_get (p2 :: rest) i
      (by simpa [trackSegments] using h)
      (by simpa using ha) (by simpa using hb)
    simpa [trackSegments] using ih

/-- Claim C8: the segmenter turns a track of N points into exactly
max (N - 1, 0) segments, the i-th pairing point i with point i + 1 in the
original order; a zero-point or one-point track yields no segments and
contributes nothing to the density mapping. -/
theorem segmenter_contract (pts : List Coord) :
    (trackSegments pts).length = pts.length - 1 ∧
      (∀ i (h : i < (trackSegments pts).length),
        (trackSegments pts).get ⟨i, h⟩ =
          (pts.get ⟨i, by have := trackSegments_length pts; omega⟩,
            pts.get ⟨i + 1, by have := trackSegments_length pts; omega⟩)) ∧
      (pts.length ≤ 1 → trackSegments pts = [] ∧
        trackDensity (trackSegments pts) = []) := by
  refine ⟨trackSegments_length pts, fun i h => trackSegments_get pts i h _ _, fun hle => ?_⟩
  have hnil : trackSegments pts = [] := by
    cases pts with
    | nil => rfl
    | cons a tl =>
      cases tl with
      | nil => rfl
      | cons b tl2 => simp at hle
  exact ⟨hnil, by simp [hnil, trackDensity]⟩

theorem segmenter_contract_witness :
    (trackSegments [(⟨0, 0⟩ : Coord), ⟨0, 1⟩, ⟨0, 2⟩]).length = 2 ∧
      (trackSegments [(⟨0, 0⟩ : Coord), ⟨0, 1⟩, ⟨0, 2⟩]).get
          ⟨1, by with_unfolding_all decide⟩ =
        ((⟨0, 1⟩ : Coord), (⟨0, 2⟩ : Coord)) :=
  ⟨(segmenter_contract [(⟨0, 0⟩ : Coord), ⟨0, 1⟩, ⟨0, 2⟩]).1,
    (segmenter_contract [(⟨0, 0⟩ : Coord), ⟨0, 1⟩, ⟨0, 2⟩]).2.1 1
      (by with_unfolding_all decide)⟩

theorem randomized_subsegs_partition_witness :
    (routeSubsegs dataLine 1 0).flatten = routeGroup dataLine 0 ∧
      [(⟨0, ⟨1, 1, 0, ()⟩, (⟨0, 0⟩, ⟨1, 0⟩)⟩ : Feature Unit),
        ⟨1, ⟨1, 1, 0, ()⟩, (⟨1, 0⟩, ⟨2, 0⟩)⟩,
        ⟨2, ⟨1, 1, 0, ()⟩, (⟨2, 0⟩, ⟨3, 0⟩)⟩] ≠ [] :=
  ⟨(randomized_subsegs_partition dataLine 1 0).1,
    (randomized_subsegs_partition dataLine 1 0).2
      [⟨0, ⟨1, 1, 0, ()⟩, (⟨0, 0⟩, ⟨1, 0⟩)⟩,
        ⟨1, ⟨1, 1, 0, ()⟩, (⟨1, 0⟩, ⟨2, 0⟩)⟩,
        ⟨2, ⟨1, 1, 0, ()⟩, (⟨2, 0⟩, ⟨3, 0⟩)⟩]
      (by with_unfolding_all decide)⟩
